import Mathlib

/-!
Verification development for the shipping-bill extraction engine
(`extract_shipping_bills.py`).  Strings are modelled as `List Char`;
Python regular expressions are modelled by a small backtracking matcher
(`RE` / `mgo`) whose result list is ordered by the backtracking
preference of the Python `re` module (leftmost match, alternation
left-first, greedy repetitions longest-first, lazy repetitions
shortest-first).  All recursions are structural so that concrete runs
reduce inside the kernel.
-/

namespace ShipBill

/-- Characters Python `str.strip` and `\s` treat as whitespace (ASCII). -/
def isSpaceC (c : Char) : Bool :=
  c = ' ' || c = '\t' || c = '\n' || c = '\r' || c = '\x0b' || c = '\x0c'

def isDigitC (c : Char) : Bool := 48 ≤ c.toNat && c.toNat ≤ 57

def isUpperC (c : Char) : Bool := 65 ≤ c.toNat && c.toNat ≤ 90

def isLowerC (c : Char) : Bool := 97 ≤ c.toNat && c.toNat ≤ 122

/-- Word characters for `\b` (ASCII fragment of Python `\w`). -/
def isWordC (c : Char) : Bool := isDigitC c || isUpperC c || isLowerC c || c = '_'

/-- ASCII upcasing, as used by Python `str.upper` on this corpus. -/
def toUpperC (c : Char) : Char :=
  if isLowerC c then Char.ofNat (c.toNat - 32) else c

/-- ASCII downcasing, as used by Python `str.lower`. -/
def toLowerC (c : Char) : Char :=
  if isUpperC c then Char.ofNat (c.toNat + 32) else c

def strL (s : String) : List Char := s.data

def upperL (s : List Char) : List Char := s.map toUpperC

/-- Python `str.strip()`: drop leading and trailing whitespace. -/
def stripPy (s : List Char) : List Char :=
  ((s.dropWhile isSpaceC).reverse.dropWhile isSpaceC).reverse

/-- Split on the newline character, keeping empty pieces
(Python `text.split("\n")`). -/
def splitNl : List Char → List (List Char)
  | [] => [[]]
  | c :: cs =>
    if c = '\n' then [] :: splitNl cs
    else
      match splitNl cs with
      | [] => [[c]]
      | l :: ls => (c :: l) :: ls

def isPrefixOfC : List Char → List Char → Bool
  | [], _ => true
  | _ :: _, [] => false
  | a :: as, b :: bs => a = b && isPrefixOfC as bs

/-- Python substring containment `needle in hay`. -/
def containsSub (needle : List Char) : List Char → Bool
  | [] => isPrefixOfC needle []
  | c :: cs => isPrefixOfC needle (c :: cs) || containsSub needle cs

/-- Python `s.endswith(suf)`. -/
def endsWithL (suf s : List Char) : Bool := isPrefixOfC suf.reverse s.reverse

/-- `clean_lines`: split the text on newlines, strip each line, and keep
the non-empty ones. -/
def clean_lines (text : List Char) : List (List Char) :=
  ((splitNl text).map stripPy).filter (fun l => !l.isEmpty)

/-! ### A backtracking regular-expression matcher -/

/-- Regular expressions, covering the constructs appearing in the
source module: character classes, literals, sequencing, alternation,
capture groups, counted/greedy/lazy repetition, lookahead, word
boundary, and the end anchor. -/
inductive RE where
  | eps
  | cls (p : Char → Bool)
  | lit (cs : List Char)
  | seq (a b : RE)
  | alt (a b : RE)
  | grp (idx : Nat) (a : RE)
  | rep (a : RE) (lo : Nat) (hi : Option Nat) (lzy : Bool)
  | look (a : RE)
  | wb
  | eos

/-- Captured groups: association list from group index to captured text. -/
abbrev Caps := List (Nat × List Char)

/-- Matcher state: the character just before the current position (for
`\b`), the remaining input, and the captures recorded so far. -/
structure MSt where
  prev : Option Char
  rest : List Char
  caps : Caps
deriving Repr

def atWordBoundary (prev : Option Char) (rest : List Char) : Bool :=
  let a := match prev with | some c => isWordC c | none => false
  let b := match rest with | c :: _ => isWordC c | [] => false
  a != b

/-- Consume the literal `cs` from the state. -/
def litGo : List Char → MSt → Option MSt
  | [], st => some st
  | c :: cs, st =>
    match st.rest with
    | [] => none
    | d :: ds => if c = d then litGo cs ⟨some d, ds, st.caps⟩ else none

/-- One fuel level of the matcher.  `recur` is invoked for the
continuation of a repetition (each such call follows at least one
consumed character for the patterns in this module). -/
def mgoF (recur : RE → MSt → List MSt) : RE → MSt → List MSt
  | .eps, st => [st]
  | .cls p, st =>
    match st.rest with
    | [] => []
    | c :: cs => if p c then [⟨some c, cs, st.caps⟩] else []
  | .lit cs, st =>
    match litGo cs st with
    | some st' => [st']
    | none => []
  | .seq a b, st => (mgoF recur a st).flatMap (mgoF recur b)
  | .alt a b, st => mgoF recur a st ++ mgoF recur b st
  | .grp n a, st =>
    (mgoF recur a st).map fun st' =>
      ⟨st'.prev, st'.rest, (n, st.rest.take (st.rest.length - st'.rest.length)) :: st'.caps⟩
  | .rep a lo hi lzy, st =>
    if lo > 0 then
      (mgoF recur a st).flatMap (recur (.rep a (lo - 1) (hi.map (· - 1)) lzy))
    else
      match hi with
      | some 0 => [st]
      | _ =>
        let more := (mgoF recur a st).flatMap (recur (.rep a 0 (hi.map (· - 1)) lzy))
        if lzy then st :: more else more ++ [st]
  | .look a, st => if (mgoF recur a st).isEmpty then [] else [st]
  | .wb, st => if atWordBoundary st.prev st.rest then [st] else []
  | .eos, st => if st.rest.isEmpty then [st] else []

/-- The fuelled matcher.  Fuel `rest.length + 2` suffices because every
repetition continuation consumes at least one character first. -/
def mgo : Nat → RE → MSt → List MSt
  | 0, _, _ => []
  | fuel + 1, r, st => mgoF (mgo fuel) r st

/-- Attempt an anchored match at the current position; first (preferred)
result only. -/
def tryAt (r : RE) (prev : Option Char) (s : List Char) : Option MSt :=
  (mgo (s.length + 2) r ⟨prev, s, []⟩).head?

/-- Scan forward for the leftmost match (Python `re.search`). -/
def searchFrom (r : RE) : Option Char → List Char → Option MSt
  | prev, [] => tryAt r prev []
  | prev, c :: cs =>
    match tryAt r prev (c :: cs) with
    | some st => some st
    | none => searchFrom r (some c) cs

def capGet (caps : Caps) (n : Nat) : List Char :=
  match caps.find? (fun p => p.1 = n) with
  | some p => p.2
  | none => []

/-- Python `re.search`: captures of the leftmost match. -/
def research (r : RE) (s : List Char) : Option Caps :=
  (searchFrom r none s).map MSt.caps

/-- Python `re.match`: anchored at the start of the string. -/
def rematch (r : RE) (s : List Char) : Option Caps :=
  (tryAt r none s).map MSt.caps

/-- Python `re.finditer`: captures of every non-overlapping match, left
to right, resuming after the end of each match. -/
def finditGo (r : RE) : Nat → Option Char → List Char → List Caps
  | 0, _, _ => []
  | fuel + 1, prev, s =>
    match searchFrom r prev s with
    | none => []
    | some st => st.caps :: finditGo r fuel st.prev st.rest

def finditAll (r : RE) (s : List Char) : List Caps :=
  finditGo r (s.length + 1) none s

/-! ### Pattern constructors and the concrete patterns of the module -/

def chS : RE := .cls isSpaceC
def chD : RE := .cls isDigitC
def chAny : RE := .cls (fun _ => true)

def plusG (a : RE) : RE := .rep a 1 none false
def plusL (a : RE) : RE := .rep a 1 none true
def starL (a : RE) : RE := .rep a 0 none true
def starG (a : RE) : RE := .rep a 0 none false
def optG (a : RE) : RE := .rep a 0 (some 1) false
def repRange (a : RE) (lo hi : Nat) : RE := .rep a lo (some hi) false

def seqL : List RE → RE
  | [] => .eps
  | [r] => r
  | r :: rest => .seq r (seqL rest)

def altOf : List (List Char) → RE
  | [] => .cls (fun _ => false)
  | [s] => .lit s
  | s :: rest => .alt (.lit s) (altOf rest)

/-- `(\d{1,2}-[A-Z]{3}-\d{2,4})` — the SB Date pattern. -/
def sbDatePat : RE :=
  .grp 1 (seqL [repRange chD 1 2, .lit (strL "-"),
                repRange (.cls isUpperC) 3 3, .lit (strL "-"),
                repRange chD 2 4])

/-- `\b(\d{7,8})\b` — the SB Number pattern. -/
def sbNoPat : RE := seqL [.wb, .grp 1 (repRange chD 7 8), .wb]

/-- The invoice-number pattern: `JT` followed by one or more characters
from the class hyphen, slash, `A-Z`, `0-9`, all captured as group 1. -/
def invNoPat : RE :=
  .grp 1 (.seq (.lit (strL "JT"))
    (plusG (.cls fun c => c = '-' || c = '/' || isUpperC c || isDigitC c)))

/-- The twelve currency codes of the alternation
`(SGD|USD|EUR|GBP|AED|MYR|INR|JPY|CNY|AUD|CAD|CHF)`, in source order. -/
def currencyCodes : List (List Char) :=
  [strL "SGD", strL "USD", strL "EUR", strL "GBP", strL "AED", strL "MYR",
   strL "INR", strL "JPY", strL "CNY", strL "AUD", strL "CAD", strL "CHF"]

/-- `re.match(r'^(SGD|...|CHF)$', line)`: an anchored match against the
alternation of the twelve codes, i.e. the line is exactly one of them. -/
def isCurrencyCode (line : List Char) : Bool := currencyCodes.contains line

/-- `1\s+(SGD|...|CHF)\s+INR` — the currency fallback pattern. -/
def curFallPat : RE :=
  seqL [.lit (strL "1"), plusG chS, .grp 1 (altOf currencyCodes),
        plusG chS, .lit (strL "INR")]

/-- The six-code alternation `(?:SGD|USD|EUR|GBP|AED|MYR)` used by the
exchange-rate patterns. -/
def cur6Alt : RE :=
  altOf [strL "SGD", strL "USD", strL "EUR", strL "GBP", strL "AED", strL "MYR"]

/-- `EXCHANGE\s+RATE.*?1\s+(?:SGD|...|MYR)\s+(?:INR)?\s*([\d\.]+)` with
`re.DOTALL` — the anchored exchange-rate pattern. -/
def exchPat1 : RE :=
  seqL [.lit (strL "EXCHANGE"), plusG chS, .lit (strL "RATE"), starL chAny,
        .lit (strL "1"), plusG chS, cur6Alt, plusG chS, optG (.lit (strL "INR")),
        starG chS, .grp 1 (plusG (.cls fun c => isDigitC c || c = '.'))]

/-- `1\s+(?:SGD|...|MYR)\s+INR\s+([\d\.]+)` — the unanchored fallback. -/
def exchPat2 : RE :=
  seqL [.lit (strL "1"), plusG chS, cur6Alt, plusG chS, .lit (strL "INR"),
        plusG chS, .grp 1 (plusG (.cls fun c => isDigitC c || c = '.'))]

/-- The seven unit tokens `(KGS|NOS|PCS|MTR|LTR|UNT|BOX)`. -/
def unitTokens : List (List Char) :=
  [strL "KGS", strL "NOS", strL "PCS", strL "MTR", strL "LTR", strL "UNT", strL "BOX"]

/-- The description character class `[A-Z\s&/,.\-]`. -/
def descCls (c : Char) : Bool :=
  isUpperC c || isSpaceC c || c = '&' || c = '/' || c = ',' || c = '.' || c = '-'

/-- Strategy A item pattern:
`\b(\d{8})\s+([A-Z][A-Z\s&/,.\-]+?)\s+(\d+)\s+(KGS|NOS|PCS|MTR|LTR|UNT|BOX)\s+(\d+)\s+(\d+)`. -/
def itemPattern : RE :=
  seqL [.wb, .grp 1 (repRange chD 8 8), plusG chS,
        .grp 2 (.seq (.cls isUpperC) (plusL (.cls descCls))), plusG chS,
        .grp 3 (plusG chD), plusG chS, .grp 4 (altOf unitTokens), plusG chS,
        .grp 5 (plusG chD), plusG chS, .grp 6 (plusG chD)]

/-- Strategy C description pattern:
`\b(\d{8})\s+([A-Z][A-Z\s&/,.\-]+?)(?=\s+\d+\s+(?:KGS|NOS|PCS|MTR|LTR))`. -/
def cDescPat : RE :=
  seqL [.wb, .grp 1 (repRange chD 8 8), plusG chS,
        .grp 2 (.seq (.cls isUpperC) (plusL (.cls descCls))),
        .look (seqL [plusG chS, plusG chD, plusG chS,
                     altOf [strL "KGS", strL "NOS", strL "PCS", strL "MTR", strL "LTR"]])]

/-- Strategy C quantity pattern:
`(\d+)\s+(KGS|NOS|PCS|MTR|LTR|UNT|BOX)\s+(\d+)\s+(\d+)`. -/
def cQtyPat : RE :=
  seqL [.grp 1 (plusG chD), plusG chS, .grp 2 (altOf unitTokens), plusG chS,
        .grp 3 (plusG chD), plusG chS, .grp 4 (plusG chD)]

/-! ### Common-field extraction -/

structure CommonData where
  sbDate : List Char
  sbNo : List Char
  consigneeName : List Char
  invNo : List Char
  currency : List Char
  exchangeRate : List Char
deriving Repr, DecidableEq

def grpOrEmpty (o : Option Caps) (n : Nat) : List Char :=
  match o with
  | some caps => capGet caps n
  | none => []

/-- The consignee loop: the line after the first line whose uppercase
form contains `CONSIGNEE` (empty when that line is the last one). -/
def consigneeScan : List (List Char) → List Char
  | [] => []
  | ln :: rest =>
    if containsSub (strL "CONSIGNEE") (upperL ln) then
      match rest with
      | [] => []
      | nxt :: _ => nxt
    else consigneeScan rest

/-- A line whose uppercase form contains `CURRENC` or `INVOICE`. -/
def isAnchorLine (ln : List Char) : Bool :=
  containsSub (strL "CURRENC") (upperL ln) || containsSub (strL "INVOICE") (upperL ln)

/-- The currency line scan: for each anchor line at index `i`, look at
`lines[i+1 : min(i+10, len(lines))]` — the up-to-9 following lines —
for the first stripped line that is exactly a currency code; stop at
the first anchor whose window yields one. -/
def currencyLineScan : List (List Char) → List Char
  | [] => []
  | ln :: rest =>
    if isAnchorLine ln then
      match (rest.take 9).find? (fun l => isCurrencyCode (stripPy l)) with
      | some c => stripPy c
      | none => currencyLineScan rest
    else currencyLineScan rest

/-- `extract_common_fields(lines, text)`. -/
def extract_common_fields (lines : List (List Char)) (text : List Char) : CommonData :=
  let sbDate := grpOrEmpty (research sbDatePat text) 1
  let sbNo := grpOrEmpty (research sbNoPat text) 1
  let invNo := grpOrEmpty (research invNoPat text) 1
  let consignee := consigneeScan lines
  let curScan := currencyLineScan lines
  let currency := if !curScan.isEmpty then curScan else grpOrEmpty (research curFallPat text) 1
  let exch :=
    match research exchPat1 text with
    | some caps => capGet caps 1
    | none => grpOrEmpty (research exchPat2 text) 1
  ⟨sbDate, sbNo, consignee, invNo, currency, exch⟩

/-! ### Line-item extraction -/

structure Item where
  description : List Char
  qty : List Char
  rate : List Char
  total : List Char
deriving Repr, DecidableEq

/-- The section-marker loop: walk the lines updating
`invoice_section_start` at every invoice marker, and stop with
`item_section_start` at the first item marker.  Indices are `Int`
with `-1` meaning "not found", exactly as in the source. -/
def sectionScan : List (List Char) → Nat → Int → Int × Int
  | [], _, inv => (inv, -1)
  | ln :: rest, i, inv =>
    let inv' :=
      if containsSub (strL "PART - II - INVOICE DETAILS") ln ||
          (containsSub (strL "INVOICE") ln && containsSub (strL "DETAILS") ln) then
        (i : Int)
      else inv
    if containsSub (strL "PART - III - ITEM DETAILS") ln ||
        containsSub (strL "ITEM DETAILS") ln then
      (inv', (i : Int))
    else sectionScan rest (i + 1) inv'

def sliceLines (lines : List (List Char)) (a b : Nat) : List (List Char) :=
  (lines.drop a).take (b - a)

def joinSpace (ls : List (List Char)) : List Char := List.intercalate (strL " ") ls

/-- Strategy A search-text selection: the invoice section when it was
found at a positive index and precedes the item section, else a
100-line window from the item marker, else the full text. -/
def searchTextSel (inv itm : Int) (lines : List (List Char)) (text : List Char) : List Char :=
  if inv > 0 ∧ itm > inv then
    joinSpace (sliceLines lines inv.toNat itm.toNat)
  else if itm > 0 then
    joinSpace (sliceLines lines itm.toNat (min (itm.toNat + 100) lines.length))
  else text

/-- Collapse every whitespace run to a single space
(`re.sub(r'\s+', ' ', s)`). -/
def collapseWsGo (prevSp : Bool) : List Char → List Char
  | [] => []
  | c :: cs =>
    if isSpaceC c then
      if prevSp then collapseWsGo true cs else ' ' :: collapseWsGo true cs
    else c :: collapseWsGo false cs

def collapseWs (s : List Char) : List Char := collapseWsGo false s

/-- Remove the trailing run of ampersands and whitespace
(`re.sub(r'[&\s]+$', '', s)`). -/
def rstripAmpWs (s : List Char) : List Char :=
  (s.reverse.dropWhile fun c => c = '&' || isSpaceC c).reverse

/-- The two description clean-up steps applied to a raw group-2 capture. -/
def cleanDesc (raw : List Char) : List Char :=
  stripPy (rstripAmpWs (collapseWs (stripPy raw)))

/-- The deduplication key `(HS code, Qty, Rate, Total)` of a match. -/
abbrev AKey := List Char × List Char × List Char × List Char

/-- The cleaned description of one Strategy A match. -/
def aDesc (caps : Caps) : List Char := cleanDesc (capGet caps 2)

/-- The deduplication key of one Strategy A match: groups 1, 3, 5, 6
(HS code, quantity, rate, total). -/
def aKey (caps : Caps) : AKey :=
  (capGet caps 1, capGet caps 3, capGet caps 5, capGet caps 6)

/-- Strategy A match loop: clean the description, discard fragments
(shorter than 10 characters or with no internal space), and keep the
first match of each key. -/
def strategyAGo : List Caps → List AKey → List (AKey × Item)
  | [], _ => []
  | caps :: rest, seen =>
    if (aDesc caps).length < 10 ∨ (aDesc caps).count ' ' < 1 then
      strategyAGo rest seen
    else if aKey caps ∈ seen then strategyAGo rest seen
    else (aKey caps, ⟨aDesc caps, capGet caps 3, capGet caps 5, capGet caps 6⟩) ::
      strategyAGo rest (aKey caps :: seen)

/-- Strategy A with the deduplication keys kept alongside the items. -/
def strategyAKeyed (lines : List (List Char)) (text : List Char) : List (AKey × Item) :=
  let ms := sectionScan lines 0 (-1)
  strategyAGo (finditAll itemPattern (searchTextSel ms.1 ms.2 lines text)) []

/-- Strategy A — horizontal records. -/
def strategyA (lines : List (List Char)) (text : List Char) : List Item :=
  (strategyAKeyed lines text).map Prod.snd

/-- Strategy B search range `(search_range_start, search_range_end)`. -/
def bRange (inv itm : Int) (n : Nat) : Nat × Nat :=
  if inv > 0 ∧ itm > inv then
    ((max 0 (inv - 50)).toNat, itm.toNat)
  else if itm > 0 then
    ((max 0 (itm - 50)).toNat, min (itm.toNat + 100) n)
  else (0, n)

def lineAt (lines : List (List Char)) (i : Nat) : List Char := lines.getD i []

def isDigitsOnly (s : List Char) : Bool := !s.isEmpty && s.all isDigitC

/-- Exactly `lo` to `hi` digits and nothing else
(`re.match` of an anchored counted digit pattern). -/
def exactDigits (lo hi : Nat) (s : List Char) : Bool :=
  s.all isDigitC && decide (lo ≤ s.length) && decide (s.length ≤ hi)

/-- `re.match(r'^\d+\s+(KGS|NOS|PCS)', s)`: one-or-more digits, then
one-or-more whitespace, then one of the three tokens, at the start. -/
def startsNumUnit3 (s : List Char) : Bool :=
  let ds := s.takeWhile isDigitC
  let r1 := s.dropWhile isDigitC
  let ws := r1.takeWhile isSpaceC
  let r2 := r1.dropWhile isSpaceC
  !ds.isEmpty && !ws.isEmpty &&
    (isPrefixOfC (strL "KGS") r2 || isPrefixOfC (strL "NOS") r2 || isPrefixOfC (strL "PCS") r2)

/-- The description-candidate test of the Strategy B vertical scan. -/
def descLineOk (descs : List (List Char)) (lt : List Char) : Bool :=
  !lt.isEmpty &&
  (match lt with | c :: _ => isUpperC c | [] => false) &&
  !isDigitsOnly lt &&
  !startsNumUnit3 lt &&
  decide (5 < lt.length) &&
  !descs.contains lt

/-- Scan `lines[i+1 : min(i+10, rend)]` for the first description
candidate, returning it with its index. -/
def findDescGo (lines : List (List Char)) (descs : List (List Char)) :
    Nat → Nat → Option (List Char × Nat)
  | 0, _ => none
  | k + 1, j =>
    let lt := stripPy (lineAt lines j)
    if descLineOk descs lt then some (lt, j) else findDescGo lines descs k (j + 1)

def findDescIn (lines : List (List Char)) (rend i : Nat) (descs : List (List Char)) :
    Option (List Char × Nat) :=
  findDescGo lines descs (min (i + 10) rend - (i + 1)) (i + 1)

/-- The Strategy B description loop over `range(rstart, rend)`: at each
line that is exactly an 8-digit code (and whose index is not yet in
`hs`, which never happens since each index is visited once), record the
first description candidate of the following window. -/
def bDescScan (lines : List (List Char)) (rend : Nat) :
    Nat → Nat → List Nat → List (List Char) → List Nat → List (List Char) × List Nat
  | 0, _, _, descs, idxs => (descs, idxs)
  | k + 1, i, hs, descs, idxs =>
    if exactDigits 8 8 (stripPy (lineAt lines i)) && !hs.contains i then
      match findDescIn lines rend i descs with
      | some (d, j) => bDescScan lines rend k (i + 1) (i :: hs) (descs ++ [d]) (idxs ++ [j])
      | none => bDescScan lines rend k (i + 1) (i :: hs) descs idxs
    else bDescScan lines rend k (i + 1) hs descs idxs

/-- `^(KGS|NOS|PCS|MTR|LTR|UNT|BOX)$` against a stripped line. -/
def isUnitLine (s : List Char) : Bool := unitTokens.contains s

/-- Does one of `lines[i+1 : min(i+5, len(lines))]` strip to a unit token? -/
def unitLineFollows (lines : List (List Char)) (i : Nat) : Bool :=
  (List.range' (i + 1) (min (i + 5) lines.length - (i + 1))).any
    fun j => isUnitLine (stripPy (lineAt lines j))

structure BSt where
  qs : List (List Char)
  rs : List (List Char)
  ts : List (List Char)
deriving Repr, DecidableEq

/-- The quantity test of the forward scan: a 2-4 digit line, while
fewer quantities than descriptions, with a unit line within the next
4 lines. -/
def bQtyStep (lines : List (List Char)) (dlen : Nat) (qs : List (List Char))
    (line : List Char) (i : Nat) : List (List Char) :=
  if exactDigits 2 4 line && decide (qs.length < dlen) && unitLineFollows lines i then
    qs ++ [line]
  else qs

/-- The rate test of the forward scan: a 1-2 digit line, while strictly
fewer rates than quantities and fewer rates than descriptions. -/
def bRateStep (dlen : Nat) (qs rs : List (List Char)) (line : List Char) :
    List (List Char) :=
  if exactDigits 1 2 line && decide (rs.length < qs.length) && decide (rs.length < dlen) then
    rs ++ [line]
  else rs

/-- The total test of the forward scan: a 3-5 digit line, while strictly
fewer totals than rates and fewer totals than descriptions. -/
def bTotStep (dlen : Nat) (rs ts : List (List Char)) (line : List Char) :
    List (List Char) :=
  if exactDigits 3 5 line && decide (ts.length < rs.length) && decide (ts.length < dlen) then
    ts ++ [line]
  else ts

/-- One line of the Strategy B quantity/rate/total forward scan.  The
three collection tests run in order on the same line, each seeing the
lists as updated by the previous one, exactly as in the source. -/
def bCollectStep (lines : List (List Char)) (dlen : Nat) (st : BSt) (i : Nat) : BSt :=
  let line := stripPy (lineAt lines i)
  let qs' := bQtyStep lines dlen st.qs line i
  let rs' := bRateStep dlen qs' st.rs line
  let ts' := bTotStep dlen rs' st.ts line
  ⟨qs', rs', ts'⟩

/-- The forward scan over `range(search_start, min(search_start + 30,
len(lines)))`. -/
def bCollect (lines : List (List Char)) (dlen s0 : Nat) : BSt :=
  (List.range' s0 (min (s0 + 30) lines.length - s0)).foldl (bCollectStep lines dlen) ⟨[], [], []⟩

/-- Strategy B — vertical/columnar records. -/
def strategyB (lines : List (List Char)) : List Item :=
  let ms := sectionScan lines 0 (-1)
  let rg := bRange ms.1 ms.2 lines.length
  let ds := bDescScan lines rg.2 (rg.2 - rg.1) rg.1 [] [] []
  if ds.1.isEmpty then []
  else
    let s0 := ds.2.getD 0 0
    let st := bCollect lines ds.1.length s0
    (List.range ds.1.length).map fun idx =>
      ⟨ds.1.getD idx [], st.qs.getD idx [], st.rs.getD idx [], st.ts.getD idx []⟩

/-- Strategy C — the single best-effort fallback item. -/
def strategyCItem (text : List Char) : Item :=
  let d :=
    match research cDescPat text with
    | some caps => cleanDesc (capGet caps 2)
    | none => []
  match research cQtyPat text with
  | some caps => ⟨d, capGet caps 1, capGet caps 3, capGet caps 4⟩
  | none => ⟨d, [], [], []⟩

/-- `extract_all_items(lines, text)`: the three strategies in priority
order, first non-empty result winning, with Strategy C always
producing one item. -/
def extract_all_items (lines : List (List Char)) (text : List Char) : List Item :=
  let a := strategyA lines text
  if !a.isEmpty then a
  else
    let b := strategyB lines
    if !b.isEmpty then b
    else [strategyCItem text]

/-! ### Document processing and the batch driver -/

structure Row where
  sbDate : List Char
  sbNo : List Char
  consigneeName : List Char
  invNo : List Char
  description : List Char
  qty : List Char
  rate : List Char
  total : List Char
  exchangeRate : List Char
deriving Repr, DecidableEq

/-- The currency-rate join of the row loop:
`f"{currency} {rate}" if currency and rate else rate`. -/
def joinRate (currency rate : List Char) : List Char :=
  if !currency.isEmpty && !rate.isEmpty then currency ++ ' ' :: rate else rate

def mkRow (cd : CommonData) (it : Item) : Row :=
  ⟨cd.sbDate, cd.sbNo, cd.consigneeName, cd.invNo, it.description, it.qty,
   joinRate cd.currency it.rate, it.total, cd.exchangeRate⟩

/-- The per-document body of `process_shipping_bills`: clean the lines,
extract the common fields and the items, and emit one row per item. -/
def processDocument (text : List Char) : List Row :=
  let lines := clean_lines text
  let cd := extract_common_fields lines text
  (extract_all_items lines text).map (mkRow cd)

def isPdfName (name : List Char) : Bool := endsWithL (strL ".pdf") (name.map toLowerC)

/-- `process_shipping_bills(folder)`, with the directory listing and the
PDF text recovery abstracted into the input: each entry is a file name
together with `some text` when `fitz` can recover the text and `none`
when opening the file raises.  The source has no exception handling, so
the first failing PDF aborts the whole call with that file's error and
no rows are returned. -/
def process_shipping_bills : List (List Char × Option (List Char)) → Except (List Char) (List Row)
  | [] => .ok []
  | (name, content) :: rest =>
    if isPdfName name then
      match content with
      | none => .error name
      | some text =>
        match process_shipping_bills rest with
        | .ok rows => .ok (processDocument text ++ rows)
        | .error e => .error e
    else process_shipping_bills rest

/-- The name of the first PDF entry whose text recovery fails, if any. -/
def firstPdfFailure : List (List Char × Option (List Char)) → Option (List Char)
  | [] => none
  | (name, content) :: rest =>
    if isPdfName name then
      match content with
      | none => some name
      | some _ => firstPdfFailure rest
    else firstPdfFailure rest

/-- The rows of every PDF entry, in listing order (meaningful when no
entry fails). -/
def allPdfRows : List (List Char × Option (List Char)) → List Row
  | [] => []
  | (name, content) :: rest =>
    if isPdfName name then processDocument (content.getD []) ++ allPdfRows rest
    else allPdfRows rest

/-- The Batch Driver as the claim describes it: skip a failing document
and continue with the remaining files, accumulating the failed paths
alongside the rows of the documents that processed successfully. -/
def batchDriverClaimed : List (List Char × Option (List Char)) → List Row × List (List Char)
  | [] => ([], [])
  | (name, content) :: rest =>
    let r := batchDriverClaimed rest
    if isPdfName name then
      match content with
      | none => (r.1, name :: r.2)
      | some text => (processDocument text ++ r.1, r.2)
    else r

/-- The eleven currency codes listed by the specification for the line
scan (the source alternation has a twelfth, `CHF`). -/
def specElevenCodes : List (List Char) :=
  [strL "SGD", strL "USD", strL "EUR", strL "GBP", strL "AED", strL "MYR",
   strL "INR", strL "JPY", strL "CNY", strL "AUD", strL "CAD"]

/-- The currency line scan as the claim describes it: anchor only at
the first line containing `CURRENC` or `INVOICE`, examine the up-to-10
lines that follow it, and give up (falling back to the full-text
pattern) when none of those lines is a currency code. -/
def currencyLineScanClaimed : List (List Char) → List Char
  | [] => []
  | ln :: rest =>
    if isAnchorLine ln then
      match (rest.take 10).find? (fun l => isCurrencyCode (stripPy l)) with
      | some c => stripPy c
      | none => []
    else currencyLineScanClaimed rest

/-! ### Concrete documents used as witnesses and counterexamples -/

/-- A document whose invoice section holds one horizontal item record
and whose currency line scan finds `USD`. -/
def docA : List Char :=
  strL "INVOICE\nUSD\nHEADER\nPART - II - INVOICE DETAILS\n06039000 FRESH MIXED FLOWERS 632 KGS 12 1896\nPART - III - ITEM DETAILS"

/-- A document with no structure at all: all three strategies degrade. -/
def docPlain : List Char := strL "HELLO"

/-- A document whose invoice section holds two syntactically identical
item records (same code, quantity, rate, total). -/
def docDup : List Char :=
  strL "HEADER\nPART - II - INVOICE DETAILS\n06039000 FRESH MIXED FLOWERS 632 KGS 3 1896 06039000 FRESH MIXED FLOWERS 632 KGS 3 1896\nPART - III - ITEM DETAILS"

/-- A document whose only item record has the cleaned description
`ABCD EFGH`: exactly 9 characters with one internal space. -/
def docNine : List Char := strL "12345678 ABCD EFGH 632 KGS 3 1896"

/-- A batch with a failing PDF followed by a readable one. -/
def batchFail : List (List Char × Option (List Char)) :=
  [(strL "a.pdf", none), (strL "b.pdf", some docPlain)]

/-- Lines whose only anchor line is followed by nine non-currency lines
and then, as the tenth following line, the code `USD`. -/
def linesTenth : List (List Char) :=
  [strL "INVOICE", strL "A1", strL "B2", strL "C3", strL "D4", strL "E5",
   strL "F6", strL "G7", strL "H8", strL "I9", strL "USD"]

def docTenth : List Char := List.intercalate (strL "\n") linesTenth

/-- Lines where the anchor is followed directly by the line `CHF`. -/
def linesChf : List (List Char) := [strL "INVOICE", strL "CHF"]

def docChf : List Char := strL "INVOICE\nCHF"

/-- A document driving Strategy B into a state with two descriptions,
one quantity and one rate when the scan reaches the standalone line
`4`. -/
def docRate : List Char :=
  strL "12345678\nGOLDEN FLOWERS\n87654321\nGARLANDS\n250\nKGS\n3\n4"

end ShipBill

namespace ShipBill

/-! ### Theorems -/

/-- C2: the three strategies run in strict priority order with the first
non-empty result winning: when Strategy A yields at least one item, the
result of `extract_all_items` is exactly the Strategy A list, and
Strategies B and C do not contribute. -/
theorem strategy_precedence :
    (∀ lines text, strategyA lines text ≠ [] →
      extract_all_items lines text = strategyA lines text) ∧
    (∀ lines text, strategyA lines text = [] → strategyB lines ≠ [] →
      extract_all_items lines text = strategyB lines) := by
  constructor
  · intro lines text h
    simp [extract_all_items, h]
  · intro lines text ha hb
    simp [extract_all_items, ha, hb]

/-- Witness for C2 at a concrete document that Strategy A matches. -/
theorem strategy_precedence_witness :
    strategyA (clean_lines docA) docA ≠ [] ∧
    extract_all_items (clean_lines docA) docA = strategyA (clean_lines docA) docA :=
  ⟨by decide, strategy_precedence.1 (clean_lines docA) docA (by decide)⟩

/-- C1: the extractor always returns at least one item (Strategy C
produces exactly one best-effort item when A and B both fail), and the
document processor emits exactly one row per item, so the row count of
a document equals its item count and is never zero. -/
theorem extractor_never_empty_rows_match :
    (∀ lines text, 0 < (extract_all_items lines text).length) ∧
    (∀ lines text, strategyA lines text = [] → strategyB lines = [] →
      extract_all_items lines text = [strategyCItem text]) ∧
    (∀ text, (processDocument text).length =
      (extract_all_items (clean_lines text) text).length) ∧
    (∀ text, research cDescPat text = none → research cQtyPat text = none →
      strategyCItem text = ⟨[], [], [], []⟩) := by
  refine ⟨fun lines text => ?_, fun lines text ha hb => ?_, fun text => ?_,
    fun text h1 h2 => by simp [strategyCItem, h1, h2]⟩
  · by_cases ha : strategyA lines text = []
    · by_cases hb : strategyB lines = []
      · simp [extract_all_items, ha, hb]
      · simp [extract_all_items, ha, hb, List.length_pos]
    · simp [extract_all_items, ha, List.length_pos]
  · simp [extract_all_items, ha, hb]
  · simp [processDocument]

/-- Witness for C1 at a document with no recoverable structure. -/
theorem extractor_never_empty_rows_match_witness :
    strategyA (clean_lines docPlain) docPlain = [] ∧
    strategyB (clean_lines docPlain) = [] ∧
    extract_all_items (clean_lines docPlain) docPlain = [strategyCItem docPlain] :=
  ⟨by decide, by decide,
    extractor_never_empty_rows_match.2.1 (clean_lines docPlain) docPlain
      (by decide) (by decide)⟩

/-- C10: when the invoice marker index is 0 the guards
`invoice_section_start > 0` fail, so both the Strategy A search-text
selection and the Strategy B window behave exactly as when the invoice
marker is absent (index `-1`). -/
theorem invoice_marker_zero_fallback :
    (∀ itm lines text, searchTextSel 0 itm lines text = searchTextSel (-1) itm lines text) ∧
    (∀ itm n, bRange 0 itm n = bRange (-1) itm n) := by
  constructor
  · intro itm lines text
    simp [searchTextSel]
  · intro itm n
    simp [bRange]

/-- C8: every output row's rate field is the currency and the item rate
joined by one space when both are non-empty, and the bare item rate
otherwise. -/
theorem rate_currency_join (text : List Char) (row : Row)
    (h : row ∈ processDocument text) :
    ∃ it ∈ extract_all_items (clean_lines text) text,
      row.rate =
        (if !(extract_common_fields (clean_lines text) text).currency.isEmpty
            && !it.rate.isEmpty then
          (extract_common_fields (clean_lines text) text).currency ++ ' ' :: it.rate
        else it.rate) := by
  simp only [processDocument, List.mem_map] at h
  obtain ⟨it, hit, rfl⟩ := h
  exact ⟨it, hit, rfl⟩

/-- Witness for C8: a document where the currency is `USD` and the item
rate is `12`, giving the joined rate `USD 12`. -/
theorem rate_currency_join_witness :
    (extract_common_fields (clean_lines docA) docA).currency = strL "USD" ∧
    processDocument docA =
      [⟨[], strL "06039000", [], [], strL "FRESH MIXED FLOWERS", strL "632",
        strL "USD 12", strL "1896", []⟩] ∧
    ∃ it ∈ extract_all_items (clean_lines docA) docA,
      (⟨[], strL "06039000", [], [], strL "FRESH MIXED FLOWERS", strL "632",
        strL "USD 12", strL "1896", []⟩ : Row).rate =
        (if !(extract_common_fields (clean_lines docA) docA).currency.isEmpty
            && !it.rate.isEmpty then
          (extract_common_fields (clean_lines docA) docA).currency ++ ' ' :: it.rate
        else it.rate) :=
  ⟨by decide, by decide,
    rate_currency_join docA
      ⟨[], strL "06039000", [], [], strL "FRESH MIXED FLOWERS", strL "632",
        strL "USD 12", strL "1896", []⟩ (by decide)⟩

/-- Invariant of the Strategy A match loop: the emitted keys are
distinct and none of them belongs to the incoming `seen` set. -/
theorem strategyAGo_keys_nodup (caps : List Caps) (seen : List AKey) :
    ((strategyAGo caps seen).map Prod.fst).Nodup ∧
    ∀ k ∈ (strategyAGo caps seen).map Prod.fst, k ∉ seen := by
  induction caps generalizing seen with
  | nil => simp [strategyAGo]
  | cons c rest ih =>
    simp only [strategyAGo]
    split
    · exact ih seen
    · split
      · exact ih seen
      · rename_i hmem
        obtain ⟨h1, h2⟩ := ih (aKey c :: seen)
        refine ⟨?_, ?_⟩
        · simp only [List.map_cons, List.nodup_cons]
          exact ⟨fun hk => (h2 _ hk) (List.mem_cons_self _ _), h1⟩
        · intro k hk
          simp only [List.map_cons, List.mem_cons] at hk
          rcases hk with rfl | hk
          · exact hmem
          · exact fun hs => (h2 k hk) (List.mem_cons_of_mem _ hs)

/-- C5: Strategy A deduplicates on the key (code, quantity, rate,
total): no two kept matches share a key, items are the kept matches,
and a document with two syntactically identical records yields exactly
one item. -/
theorem strategyA_dedup :
    (∀ lines text, ((strategyAKeyed lines text).map Prod.fst).Nodup) ∧
    (∀ lines text, strategyA lines text = (strategyAKeyed lines text).map Prod.snd) ∧
    extract_all_items (clean_lines docDup) docDup =
      [⟨strL "FRESH MIXED FLOWERS", strL "632", strL "3", strL "1896"⟩] := by
  refine ⟨fun lines text => ?_, fun lines text => rfl, by decide⟩
  exact (strategyAGo_keys_nodup _ []).1

/-- Every item kept by the Strategy A loop passed the sanity filter:
its description has at least 10 characters and at least one space. -/
theorem strategyAGo_desc_long (caps : List Caps) (seen : List AKey)
    (k : AKey) (it : Item) (h : (k, it) ∈ strategyAGo caps seen) :
    10 ≤ it.description.length ∧ 1 ≤ it.description.count ' ' := by
  induction caps generalizing seen with
  | nil => simp [strategyAGo] at h
  | cons c rest ih =>
    simp only [strategyAGo] at h
    split at h
    · exact ih seen h
    · split at h
      · exact ih seen h
      · rename_i hfil _
        rcases List.mem_cons.mp h with heq | hmem
        · obtain ⟨-, h2⟩ := Prod.mk.injEq .. ▸ heq
          push_neg at hfil
          rw [h2]
          simpa using hfil
        · exact ih _ hmem

/-- C4 counterexample: the document `docNine` has exactly one Strategy A
match, whose cleaned description is the 9-character, one-space string
`ABCD EFGH`, yet Strategy A keeps no item: the sanity filter discards
the 9-character candidate instead of accepting it. -/
theorem nine_char_desc_ctrex :
    (strL "ABCD EFGH").length = 9 ∧ (strL "ABCD EFGH").count ' ' = 1 ∧
    (finditAll itemPattern docNine).map aDesc = [strL "ABCD EFGH"] ∧
    strategyA (clean_lines docNine) docNine = [] := by decide

/-- C4 amended: a 9-character description candidate is rejected, not
accepted: every item Strategy A keeps has a cleaned description of at
least 10 characters containing at least one space (the `len(desc) < 10`
rejection is strict, so 10 characters is the smallest accepted size). -/
theorem strategyA_desc_filter (lines : List (List Char)) (text : List Char)
    (it : Item) (h : it ∈ strategyA lines text) :
    10 ≤ it.description.length ∧ 1 ≤ it.description.count ' ' := by
  simp only [strategyA, List.mem_map] at h
  obtain ⟨⟨k, it'⟩, hmem, rfl⟩ := h
  exact strategyAGo_desc_long _ _ k it' hmem

/-- Witness for the amended C4 at a concrete kept item. -/
theorem strategyA_desc_filter_witness :
    (⟨strL "FRESH MIXED FLOWERS", strL "632", strL "12", strL "1896"⟩ : Item) ∈
      strategyA (clean_lines docA) docA ∧
    10 ≤ (strL "FRESH MIXED FLOWERS").length := by
  refine ⟨by decide, ?_⟩
  exact (strategyA_desc_filter (clean_lines docA) docA
    ⟨strL "FRESH MIXED FLOWERS", strL "632", strL "12", strL "1896"⟩ (by decide)).1

/-- C3 counterexample: on a batch whose first PDF fails to decode, the
claimed skip-and-continue driver would report the second document's row
and the failed path, but `process_shipping_bills` aborts the whole
batch with the failing file's error and returns no rows at all. -/
theorem batch_skip_continue_ctrex :
    batchDriverClaimed batchFail =
      ([⟨[], [], [], [], [], [], [], [], []⟩], [strL "a.pdf"]) ∧
    process_shipping_bills batchFail = .error (strL "a.pdf") := by
  exact ⟨by decide, rfl⟩

/-- C3 amended: the Batch Driver does not skip-and-continue: a decode
failure propagates, aborting the whole batch with the first failing
PDF's path and producing no rows; only a batch in which every PDF
decodes yields the concatenated result table. -/
theorem batch_abort_on_failure (fs : List (List Char × Option (List Char))) :
    process_shipping_bills fs =
      match firstPdfFailure fs with
      | some name => .error name
      | none => .ok (allPdfRows fs) := by
  induction fs with
  | nil => rfl
  | cons f rest ih =>
    obtain ⟨name, content⟩ := f
    by_cases hp : isPdfName name
    · cases content with
      | none => simp [process_shipping_bills, firstPdfFailure, hp]
      | some text =>
        simp only [process_shipping_bills, firstPdfFailure, allPdfRows, hp, if_true, ih]
        cases firstPdfFailure rest <;> simp
    · simp [process_shipping_bills, firstPdfFailure, allPdfRows, hp, ih]

/-- C6 counterexample: a line reading `CHF` is accepted by the currency
line scan although `CHF` is not among the eleven codes the claim fixes. -/
theorem currency_eleven_ctrex :
    (extract_common_fields linesChf docChf).currency = strL "CHF" ∧
    strL "CHF" ∉ specElevenCodes := by
  exact ⟨by decide, by decide⟩

/-- C6 amended: the line scan accepts exactly the twelve codes of the
source alternation — the eleven listed plus `CHF`: whatever currency it
sets is one of the twelve, and a line passes the test precisely when it
is one of them. -/
theorem currency_scan_twelve_codes :
    (∀ lines, currencyLineScan lines ≠ [] → currencyLineScan lines ∈ currencyCodes) ∧
    (∀ ln, isCurrencyCode ln = true ↔ ln ∈ currencyCodes) := by
  have hcode : ∀ ln : List Char, isCurrencyCode ln = true ↔ ln ∈ currencyCodes := by
    intro ln
    simp [isCurrencyCode]
  refine ⟨?_, hcode⟩
  intro lines h
  induction lines with
  | nil => simp [currencyLineScan] at h
  | cons ln rest ih =>
    by_cases ha : isAnchorLine ln
    · rcases hf : (rest.take 9).find? (fun l => isCurrencyCode (stripPy l)) with _ | c
      · rw [currencyLineScan, if_pos ha, hf] at h ⊢
        exact ih h
      · rw [currencyLineScan, if_pos ha, hf]
        have hp : isCurrencyCode (stripPy c) = true := by
          simpa using List.find?_some hf
        show stripPy c ∈ currencyCodes
        exact (hcode _).mp hp
    · rw [currencyLineScan, if_neg ha] at h ⊢
      exact ih h

/-- Witness for the amended C6: the `CHF` line is accepted and the
resulting currency is one of the twelve source codes. -/
theorem currency_scan_twelve_codes_witness :
    currencyLineScan linesChf ≠ [] ∧ currencyLineScan linesChf ∈ currencyCodes :=
  ⟨by decide, currency_scan_twelve_codes.1 linesChf (by decide)⟩

/-- C7 counterexample: on `linesTenth` the claimed behaviour — examine
the up-to-10 lines after the first anchor — finds `USD` on the tenth
following line, but the source scan examines only 9 following lines
per anchor, finds nothing, and the extracted currency stays empty. -/
theorem currency_anchor_ctrex :
    currencyLineScanClaimed linesTenth = strL "USD" ∧
    currencyLineScan linesTenth = [] ∧
    (extract_common_fields linesTenth docTenth).currency = [] := by
  exact ⟨by decide, by decide, by decide⟩

/-- C7 amended: the line scan tries every anchor line (a line whose
uppercase form contains CURRENC or INVOICE) in order, examining the
up-to-9 lines that follow it, and succeeds exactly when some anchor
has a currency-code line among the 9 lines after it. -/
theorem currency_scan_characterization :
    (∀ lines, currencyLineScan lines ≠ [] ↔
      ∃ pre a suf, lines = pre ++ a :: suf ∧ isAnchorLine a = true ∧
        (suf.take 9).any (fun l => isCurrencyCode (stripPy l)) = true) ∧
    (∀ lines text, currencyLineScan lines = [] →
      (extract_common_fields lines text).currency =
        grpOrEmpty (research curFallPat text) 1) ∧
    (∀ lines text, currencyLineScan lines ≠ [] →
      (extract_common_fields lines text).currency = currencyLineScan lines) := by
  refine ⟨fun lines => ?_, fun lines text h => by simp [extract_common_fields, h],
    fun lines text h => by simp [extract_common_fields, List.isEmpty_iff, h]⟩
  induction lines with
  | nil => simp [currencyLineScan]
  | cons ln rest ih =>
    by_cases ha : isAnchorLine ln
    · rcases hf : (rest.take 9).find? (fun l => isCurrencyCode (stripPy l)) with _ | c
      · have hred : currencyLineScan (ln :: rest) = currencyLineScan rest := by
          rw [currencyLineScan, if_pos ha, hf]
        have hnone : ∀ l ∈ rest.take 9, ¬ isCurrencyCode (stripPy l) = true := by
          intro l hl
          have := List.find?_eq_none.mp hf l hl
          simpa using this
        rw [hred, ih]
        constructor
        · rintro ⟨pre, a, suf, heq, ha2, hany⟩
          exact ⟨ln :: pre, a, suf, by rw [heq, List.cons_append], ha2, hany⟩
        · rintro ⟨pre, a, suf, heq, ha2, hany⟩
          cases pre with
          | nil =>
            simp only [List.nil_append] at heq
            injection heq with h1 h2
            subst h2
            obtain ⟨l, hl, hpl⟩ := List.any_eq_true.mp hany
            exact absurd (show isCurrencyCode (stripPy l) = true by simpa using hpl)
              (hnone l hl)
          | cons p pre2 =>
            simp only [List.cons_append] at heq
            injection heq with h1 h2
            exact ⟨pre2, a, suf, h2, ha2, hany⟩
      · have hred : currencyLineScan (ln :: rest) = stripPy c := by
          rw [currencyLineScan, if_pos ha, hf]
        have hp : isCurrencyCode (stripPy c) = true := by
          simpa using List.find?_some hf
        have hmem := List.mem_of_find?_eq_some hf
        rw [hred]
        constructor
        · intro _
          exact ⟨[], ln, rest, rfl, ha, List.any_eq_true.mpr ⟨c, hmem, by simpa using hp⟩⟩
        · intro _ hnil
          rw [hnil] at hp
          revert hp
          decide
    · have hred : currencyLineScan (ln :: rest) = currencyLineScan rest := by
        rw [currencyLineScan, if_neg ha]
      rw [hred, ih]
      constructor
      · rintro ⟨pre, a, suf, heq, ha2, hany⟩
        exact ⟨ln :: pre, a, suf, by rw [heq, List.cons_append], ha2, hany⟩
      · rintro ⟨pre, a, suf, heq, ha2, hany⟩
        cases pre with
        | nil =>
          simp only [List.nil_append] at heq
          injection heq with h1 h2
          subst h1
          exact absurd ha2 (by simpa using ha)
        | cons p pre2 =>
          simp only [List.cons_append] at heq
          injection heq with h1 h2
          exact ⟨pre2, a, suf, h2, ha2, hany⟩

/-- Witness for the amended C7: a concrete anchor with a code in its
9-line window. -/
theorem currency_scan_characterization_witness :
    ∃ pre a suf, linesChf = pre ++ a :: suf ∧ isAnchorLine a = true ∧
      (suf.take 9).any (fun l => isCurrencyCode (stripPy l)) = true :=
  (currency_scan_characterization.1 linesChf).mp (by decide)

/-- C9 counterexample: in the Strategy B scan of `docRate` the state
just before line index 7 holds two descriptions, one quantity and one
rate; line 7 is the standalone 1-digit line `4` and fewer rates than
descriptions have been collected, so the claim says it is collected as
a rate — but the source requires strictly more quantities than rates
(1 > 1 fails) and the rate list stays `["3"]`, leaving the second
item's rate empty. -/
theorem rate_collection_ctrex :
    ((List.range' 1 6).foldl (bCollectStep (clean_lines docRate) 2) ⟨[], [], []⟩ =
      ⟨[strL "250"], [strL "3"], []⟩) ∧
    stripPy (lineAt (clean_lines docRate) 7) = strL "4" ∧
    exactDigits 1 2 (strL "4") = true ∧
    (1 ≤ ([strL "250"] : List (List Char)).length ∧
      ([strL "3"] : List (List Char)).length < 2) ∧
    (bCollectStep (clean_lines docRate) 2 ⟨[strL "250"], [strL "3"], []⟩ 7).rs =
      [strL "3"] ∧
    (bCollect (clean_lines docRate) 2 1).rs = [strL "3"] ∧
    extract_all_items (clean_lines docRate) docRate =
      [⟨strL "GOLDEN FLOWERS", strL "250", strL "3", []⟩,
       ⟨strL "GARLANDS", [], [], []⟩] := by decide

/-- Characterization of the rate test: a rate is appended exactly when
the line is 1-2 digits, there are strictly more quantities than rates,
and fewer rates than descriptions; when appended, it goes at the end. -/
theorem bRateStep_iff (dl : Nat) (qs rs : List (List Char)) (line : List Char) :
    (bRateStep dl qs rs line ≠ rs ↔
      (exactDigits 1 2 line = true ∧ rs.length < qs.length ∧ rs.length < dl)) ∧
    (bRateStep dl qs rs line ≠ rs → bRateStep dl qs rs line = rs ++ [line]) := by
  rw [bRateStep]
  split
  · rename_i hc
    simp only [Bool.and_eq_true, decide_eq_true_eq] at hc
    have hne : rs ++ [line] ≠ rs := by
      intro h
      have := congrArg List.length h
      simp at this
    exact ⟨⟨fun _ => ⟨hc.1.1, hc.1.2, hc.2⟩, fun _ => hne⟩, fun _ => rfl⟩
  · rename_i hc
    simp only [Bool.and_eq_true, decide_eq_true_eq] at hc
    refine ⟨⟨fun h => absurd rfl h, fun h => absurd ⟨⟨h.1, h.2.1⟩, h.2.2⟩ hc⟩,
      fun h => absurd rfl h⟩

/-- Characterization of the total test, in the same shape. -/
theorem bTotStep_iff (dl : Nat) (rs ts : List (List Char)) (line : List Char) :
    (bTotStep dl rs ts line ≠ ts ↔
      (exactDigits 3 5 line = true ∧ ts.length < rs.length ∧ ts.length < dl)) ∧
    (bTotStep dl rs ts line ≠ ts → bTotStep dl rs ts line = ts ++ [line]) := by
  rw [bTotStep]
  split
  · rename_i hc
    simp only [Bool.and_eq_true, decide_eq_true_eq] at hc
    have hne : ts ++ [line] ≠ ts := by
      intro h
      have := congrArg List.length h
      simp at this
    exact ⟨⟨fun _ => ⟨hc.1.1, hc.1.2, hc.2⟩, fun _ => hne⟩, fun _ => rfl⟩
  · rename_i hc
    simp only [Bool.and_eq_true, decide_eq_true_eq] at hc
    refine ⟨⟨fun h => absurd rfl h, fun h => absurd ⟨⟨h.1, h.2.1⟩, h.2.2⟩ hc⟩,
      fun h => absurd rfl h⟩

/-- C9 amended: during the forward scan a standalone 1-2 digit line is
collected as a rate exactly when strictly more quantities than rates
have been collected so far (counting a quantity collected from the
same line) and fewer rates than descriptions; a 3-5 digit line is
collected as a total exactly when strictly more rates than totals have
been collected (again counting this line) and fewer totals than
descriptions. -/
theorem rate_total_collection (lines : List (List Char)) (dlen : Nat) (st : BSt) (i : Nat) :
    ((bCollectStep lines dlen st i).rs =
      bRateStep dlen (bCollectStep lines dlen st i).qs st.rs (stripPy (lineAt lines i))) ∧
    ((bCollectStep lines dlen st i).ts =
      bTotStep dlen (bCollectStep lines dlen st i).rs st.ts (stripPy (lineAt lines i))) ∧
    (∀ dl qs rs line, bRateStep dl qs rs line ≠ rs ↔
      (exactDigits 1 2 line = true ∧ rs.length < qs.length ∧ rs.length < dl)) ∧
    (∀ dl qs rs line, bRateStep dl qs rs line ≠ rs →
      bRateStep dl qs rs line = rs ++ [line]) ∧
    (∀ dl rs ts line, bTotStep dl rs ts line ≠ ts ↔
      (exactDigits 3 5 line = true ∧ ts.length < rs.length ∧ ts.length < dl)) ∧
    (∀ dl rs ts line, bTotStep dl rs ts line ≠ ts →
      bTotStep dl rs ts line = ts ++ [line]) :=
  ⟨rfl, rfl,
    fun dl qs rs line => (bRateStep_iff dl qs rs line).1,
    fun dl qs rs line => (bRateStep_iff dl qs rs line).2,
    fun dl rs ts line => (bTotStep_iff dl rs ts line).1,
    fun dl rs ts line => (bTotStep_iff dl rs ts line).2⟩

/-- Witness for the amended C9 at a concrete collection. -/
theorem rate_total_collection_witness :
    bRateStep 2 [strL "250"] [] (strL "3") = [] ++ [strL "3"] :=
  (rate_total_collection (clean_lines docRate) 2 ⟨[], [], []⟩ 0).2.2.2.1
    2 [strL "250"] [] (strL "3") (by decide)

end ShipBill
